import Mathlib

/-!
Shallow embedding of `src/main.ts` of the spaces-image-uploader plugin.

Documents are modelled as flat character lists (`List Char`); the host editor
operations used by the plugin (split into lines, per-line substring search,
`replaceRange` on a line/column span, `setCursor`) are modelled as pure
functions on that representation.  Machine-integer behaviour of JavaScript
(`>>> 0`) is modelled with explicit `% 2^32` arithmetic on `Int`/`Nat`.
Fallible code (`throw` inside `wrapFileDependingOnType`, rejected promises)
is modelled with `Except`.
-/

set_option maxRecDepth 10000

/-- JS whitespace test covering the characters `String.prototype.trim` strips
that can occur in this plugin's strings (space, tab, newline, carriage
return). -/
def jsWsChar (c : Char) : Bool := c == ' ' || c == '\t' || c == '\n' || c == '\r'

/-- Model of `target.trim()` (source line 67): strip whitespace from both
ends. -/
def jsTrim (s : List Char) : List Char :=
  ((s.dropWhile jsWsChar).reverse.dropWhile jsWsChar).reverse

/-- Test whether the character list `t` occurs at the very start of
`s`. -/
def leadsWith : List Char → List Char → Bool
  | [], _ => true
  | _ :: _, [] => false
  | a :: t, b :: s => a == b && leadsWith t s

/-- Model of JavaScript `s.indexOf(t)` (source line 70), returning `none`
for `-1`: the first index of `s` at which `t` occurs. -/
def indexOfSub (t : List Char) : List Char → Option Nat
  | [] => if leadsWith t [] then some 0 else none
  | c :: s => if leadsWith t (c :: s) then some 0 else (indexOfSub t s).map (· + 1)

/-- Boolean occurrence test: `t` occurs somewhere inside `s`.  Also models an
unanchored JavaScript regex match against the literal core of the pattern
(`/video.*/` matches a string iff `"video"` occurs in it). -/
def containsSub (s t : List Char) : Bool := (indexOfSub t s).isSome

/-- Model of `editor.getValue().split("\n")` (source line 68). -/
def splitNL : List Char → List (List Char)
  | [] => [[]]
  | c :: rest =>
    match splitNL rest with
    | [] => [[]]
    | l :: ls => if c = '\n' then [] :: l :: ls else (c :: l) :: ls

/-- Inverse of `splitNL`: joining lines with `'\n'`. -/
def joinNL : List (List Char) → List Char
  | [] => []
  | [l] => l
  | l :: l2 :: ls => l ++ '\n' :: joinNL (l2 :: ls)

/-- The `for` loop of `replaceText` (source lines 69-81): scan the lines
top-to-bottom and return the first line index together with the column of the
first occurrence of the target in that line. -/
def findLine : List (List Char) → List Char → Option (Nat × Nat)
  | [], _ => none
  | l :: ls, t =>
    match indexOfSub t l with
    | some ch => some (0, ch)
    | none => (findLine ls t).map (fun p => (p.1 + 1, p.2))

/-- Flat-text offset of the editor position `(line i, column ch)`: every line
before line `i` contributes its length plus one for the `'\n'` separator. -/
def offsetOf (lines : List (List Char)) (i ch : Nat) : Nat :=
  (((lines.take i).map (fun l => l.length + 1)).sum) + ch

/-- Model of `SpacesUploaderPlugin.replaceText` (source lines 62-82): trim
the target, split the document into lines, find the first line containing the
trimmed target, set the cursor to the start of the found span and replace the
span (`editor.replaceRange`, acting on the flat text) with the replacement.
If no line contains the target, nothing happens.  The host call
`replaceRange(replacement, from, to)` with `from`/`to` on the same line is a
splice of the flat document text at the corresponding flat offsets, which is
how it is modelled here. -/
def replaceText (doc : List Char) (cursor : Nat × Nat)
    (target replacement : List Char) : List Char × (Nat × Nat) :=
  match findLine (splitNL doc) (jsTrim target) with
  | none => (doc, cursor)
  | some (i, ch) =>
    (doc.take (offsetOf (splitNL doc) i ch) ++ replacement ++
       doc.drop (offsetOf (splitNL doc) i ch + (jsTrim target).length),
     (i, ch))

/-- Mirror of the `SpacesUploaderSettings` interface (source lines 21-37).
Strings are character lists, booleans are `Bool`. -/
structure SpacesUploaderSettings where
  accessKey : List Char
  secretKey : List Char
  region : List Char
  bucket : List Char
  folder : List Char
  imageUrlPath : List Char
  uploadOnDrag : Bool
  localUpload : Bool
  localUploadFolder : List Char
  endpoint : List Char
  forcePathStyle : Bool
  uploadVideo : Bool
  uploadAudio : Bool
  uploadPdf : Bool
  publicAcl : Bool
deriving DecidableEq

/-- Mirror of `DEFAULT_SETTINGS` (source lines 39-55); the source field
`public` is named `publicAcl` here because `public` is unavailable as a field
name. -/
def DEFAULT_SETTINGS : SpacesUploaderSettings where
  accessKey := []
  secretKey := []
  region := []
  bucket := []
  folder := []
  imageUrlPath := []
  uploadOnDrag := true
  localUpload := false
  localUploadFolder := []
  endpoint := []
  forcePathStyle := false
  uploadVideo := false
  uploadAudio := false
  uploadPdf := false
  publicAcl := true

/-- Parsed frontmatter of the active note (source lines 97-103): each
recognized key may be absent (`none`) or present with a value. -/
structure FrontmatterData where
  uploadOnDrag : Option Bool := none
  localUpload : Option Bool := none
  localUploadFolder : Option (List Char) := none
  uploadVideo : Option Bool := none
  uploadAudio : Option Bool := none
  uploadPdf : Option Bool := none
deriving DecidableEq

/-- Semantics of the source pattern `const v = (fm && fm.x) ? (fm && fm.x) :
settings.x` (source lines 105-117): the frontmatter value is used only when
it is the truthy value `true`; an absent frontmatter object, an absent key,
or the value `false` all fall back to the global setting. -/
def resolveBoolFm (fmv : Option Bool) (g : Bool) : Bool :=
  match fmv with
  | some true => true
  | _ => g

/-- Semantics of `v ? v : g` for a string-valued frontmatter field
(source lines 168-170 and 226-228): an absent key or the empty string is
falsy and falls back to the global setting. -/
def resolveStr (fmv : Option (List Char)) (g : List Char) : List Char :=
  match fmv with
  | some s => if s = [] then g else s
  | none => g

/-- Model of `const fmUploadFolder = fm ? fm.localUploadFolder : null`
(source line 100). -/
def fmUploadFolder (fm : Option FrontmatterData) : Option (List Char) :=
  fm.bind (fun f => f.localUploadFolder)

/-- Resolved `localUpload` flag (source lines 105-107). -/
def effLocalUpload (fm : Option FrontmatterData) (s : SpacesUploaderSettings) : Bool :=
  resolveBoolFm (fm.bind (fun f => f.localUpload)) s.localUpload

/-- Resolved `uploadVideo` flag (source lines 109-111). -/
def effUploadVideo (fm : Option FrontmatterData) (s : SpacesUploaderSettings) : Bool :=
  resolveBoolFm (fm.bind (fun f => f.uploadVideo)) s.uploadVideo

/-- Resolved `uploadAudio` flag (source lines 113-115). -/
def effUploadAudio (fm : Option FrontmatterData) (s : SpacesUploaderSettings) : Bool :=
  resolveBoolFm (fm.bind (fun f => f.uploadAudio)) s.uploadAudio

/-- Resolved `uploadPdf` flag (source line 117). -/
def effUploadPdf (fm : Option FrontmatterData) (s : SpacesUploaderSettings) : Bool :=
  resolveBoolFm (fm.bind (fun f => f.uploadPdf)) s.uploadPdf

/-- Folder used on the remote path (source lines 168-170):
`const folder = fmUploadFolder ? fmUploadFolder : this.settings.folder`. -/
def remoteFolder (fm : Option FrontmatterData) (s : SpacesUploaderSettings) : List Char :=
  resolveStr (fmUploadFolder fm) s.folder

/-- Remote storage key (source line 171):
`const key = folder ? folder + "/" + newFileName : newFileName`. -/
def remoteKey (fm : Option FrontmatterData) (s : SpacesUploaderSettings)
    (newFileName : List Char) : List Char :=
  if remoteFolder fm s = [] then newFileName
  else remoteFolder fm s ++ '/' :: newFileName

/-- Folder used on the local path (source lines 226-228):
`const localUploadFolder = fmUploadFolder ? fmUploadFolder :
this.settings.localUploadFolder`. -/
def localFolder (fm : Option FrontmatterData) (s : SpacesUploaderSettings) : List Char :=
  resolveStr (fmUploadFolder fm) s.localUploadFolder

/-- Local write path (source lines 229-231). -/
def localUploadPath (fm : Option FrontmatterData) (s : SpacesUploaderSettings)
    (newFileName : List Char) : List Char :=
  if localFolder fm s = [] then newFileName
  else localFolder fm s ++ '/' :: newFileName

/-- Media kinds distinguished by the handler. -/
inductive MediaKind where
  | image
  | video
  | audio
  | pdf
deriving DecidableEq

/-- The string the source stores in `thisType` for each media kind. -/
def kindStr : MediaKind → List Char
  | .image => ['i', 'm', 'a', 'g', 'e']
  | .video => ['v', 'i', 'd', 'e', 'o']
  | .audio => ['a', 'u', 'd', 'i', 'o']
  | .pdf => ['p', 'd', 'f']

/-- Literal core of the regex `/video.*/` (source line 134). -/
def videoPat : List Char := ['v', 'i', 'd', 'e', 'o']

/-- Literal core of the regex `/audio.*/` (source line 135). -/
def audioPat : List Char := ['a', 'u', 'd', 'i', 'o']

/-- Literal core of the regex `/application\/pdf/` (source line 136). -/
def pdfPat : List Char :=
  ['a', 'p', 'p', 'l', 'i', 'c', 'a', 't', 'i', 'o', 'n', '/', 'p', 'd', 'f']

/-- Literal core of the regex `/image.*/` (source line 133). -/
def imagePat : List Char := ['i', 'm', 'a', 'g', 'e']

/-- Model of the `thisType` computation (source lines 138-148): an unanchored
`match` of the declared MIME type against each pattern, gated by the resolved
enable flag, in the source's order video, audio, pdf, image; the empty string
means no kind matched (the event is then not claimed). -/
def classifyType (mime : List Char) (uploadVideo uploadAudio uploadPdf : Bool) : List Char :=
  if containsSub mime videoPat && uploadVideo then kindStr .video
  else if containsSub mime audioPat && uploadAudio then kindStr .audio
  else if containsSub mime pdfPat && uploadPdf then kindStr .pdf
  else if containsSub mime imagePat then kindStr .image
  else []

/-- Ordered, gated rule table written from the specification's words: pairs
of (pattern, enable flag) with their kind, in precedence order video, audio,
pdf, image; the image rule needs no flag. -/
def specKindRules (uploadVideo uploadAudio uploadPdf : Bool) :
    List (List Char × Bool × MediaKind) :=
  [(videoPat, uploadVideo, .video),
   (audioPat, uploadAudio, .audio),
   (pdfPat, uploadPdf, .pdf),
   (imagePat, true, .image)]

/-- First rule of an ordered table whose pattern occurs in the MIME type and
whose gate is enabled. -/
def firstEnabledMatch (mime : List Char) :
    List (List Char × Bool × MediaKind) → Option MediaKind
  | [] => none
  | (pat, enabled, k) :: rs =>
    if containsSub mime pat && enabled then some k else firstEnabledMatch mime rs

/-- Specification-side classifier: the first matching enabled kind of the
ordered rule table, or `none` (the event is declined). -/
def specClassify (mime : List Char) (uploadVideo uploadAudio uploadPdf : Bool) :
    Option MediaKind :=
  firstEnabledMatch mime (specKindRules uploadVideo uploadAudio uploadPdf)

/-- Tail-recursive core of JavaScript `String.prototype.lastIndexOf` for a
single character: `i` is the index of the head of the remaining list, `acc`
the last index seen so far (`-1` initially). -/
def jsLastIndexOfAux (c : Char) : List Char → Nat → Int → Int
  | [], _, acc => acc
  | x :: xs, i, acc => jsLastIndexOfAux c xs (i + 1) (if x = c then (i : Int) else acc)

/-- Model of `name.lastIndexOf(".")` (source line 163): the largest index at
which `c` occurs in `l`, or `-1` when it does not occur. -/
def jsLastIndexOf (l : List Char) (c : Char) : Int :=
  jsLastIndexOfAux c l 0 (-1)

/-- JavaScript `x >>> 0`: reduce modulo `2^32` into a natural number. -/
def jsUint32 (x : Int) : Nat := (x % 4294967296).toNat

/-- The slice start `((name.lastIndexOf(".") - 1) >>> 0) + 2`
(source line 163). -/
def extStart (name : List Char) : Nat := jsUint32 (jsLastIndexOf name '.' - 1) + 2

/-- The extension slice `file.name.slice(((lastIndexOf - 1) >>> 0) + 2)`
(source line 163); `slice(n)` with `0 ≤ n` is `drop n`, and an index past the
end yields the empty string. -/
def extSlice (name : List Char) : List Char := name.drop (extStart name)

/-- The content key `newFileName = digest + "." + extension slice`
(source lines 160-163).  Note the dot is appended unconditionally. -/
def mkFileName (digest name : List Char) : List Char :=
  digest ++ '.' :: extSlice name

/-- The full fingerprint of source lines 154-163 with the external MD5
library call (`crypto.createHash("md5")...digest("hex")`) abstracted as an
arbitrary function `digestFn` of the file bytes alone. -/
def fingerprint (digestFn : List Nat → List Char) (bytes : List Nat)
    (name : List Char) : List Char :=
  mkFileName (digestFn bytes) name

/-- Specification-side extension: the substring after the last dot of a
(dotted) filename, i.e. the maximal dot-free suffix. -/
def specAfterLastDot (l : List Char) : List Char :=
  (l.reverse.takeWhile (fun c => !(c == '.'))).reverse

/-- The placeholder text `![uploading...](newFileName)` plus a newline
(source line 164). -/
def pastePlaceText (newFileName : List Char) : List Char :=
  "![uploading...](".toList ++ newFileName ++ ")".toList ++ ['\n']

/-- Model of `wrapFileDependingOnType` (source lines 566-589).  `throw`
becomes `Except.error`; string truthiness of `localBase` is the test against
the empty string. -/
def wrapFileDependingOnType (location ty localBase : List Char) :
    Except (List Char) (List Char) :=
  let srcPre := if localBase = [] then [] else "file://".toList ++ localBase ++ ['/']
  if ty = kindStr .image then
    .ok ("![image](".toList ++ location ++ [')'])
  else if ty = kindStr .video then
    .ok ("<video src=\"".toList ++ srcPre ++ location ++ "\" controls />".toList)
  else if ty = kindStr .audio then
    .ok ("<audio src=\"".toList ++ srcPre ++ location ++ "\" controls />".toList)
  else if ty = kindStr .pdf then
    if localBase = [] then
      .ok ("<iframe frameborder=0 border=0 width=100% height=800\n\tsrc=\"https://docs.google.com/viewer?url=".toList
        ++ location ++ "?raw=true\">\n</iframe>".toList)
    else
      .error "PDFs cannot be embedded in local mode".toList
  else
    .error "Unknown file type".toList

/-- Notice text of the remote success branch (source lines 213-215). -/
def remoteOkNotice (bucket : List Char) : List Char :=
  "Image uploaded to S3 bucket: ".toList ++ bucket

/-- Notice text of the remote `.catch` branch (source lines 219-222). -/
def remoteErrNotice (bucket msg : List Char) : List Char :=
  "Error uploading image to S3 bucket ".toList ++ bucket ++ ": ".toList ++ msg

/-- Notice text of the local success branch (source lines 259-261). -/
def localOkNotice (folder : List Char) : List Char :=
  "Image uploaded to ".toList ++ folder ++ " folder".toList

/-- Notice text of the local `.catch` branch (source lines 265-268). -/
def localErrNotice (folder msg : List Char) : List Char :=
  "Error uploading image to ".toList ++ folder ++ " folder: ".toList ++ msg

/-- Reconciliation of the remote path (source lines 192-223): the
`.then(...)` / `.catch(...)` chain after `client.send`, as a pure function of
the send outcome.  On a rejected send the catch only logs and raises a
notice; on success the markup is generated (a markup failure removes the
placeholder, and the rethrown error lands in the same catch), otherwise the
placeholder is replaced by the markup and a success notice is raised.
Returns the new document with its cursor, and the list of raised notices. -/
def remoteAfterSend (doc : List Char) (cursor : Nat × Nat)
    (pastePlace bucket imageUrlPath key ty : List Char)
    (sendResult : Except (List Char) Unit) :
    (List Char × (Nat × Nat)) × List (List Char) :=
  match sendResult with
  | .error e => ((doc, cursor), [remoteErrNotice bucket e])
  | .ok _ =>
    match wrapFileDependingOnType (imageUrlPath ++ key) ty [] with
    | .error e => (replaceText doc cursor pastePlace [], [remoteErrNotice bucket e])
    | .ok md => (replaceText doc cursor pastePlace md, [remoteOkNotice bucket])

/-- Reconciliation of the local path (source lines 233-269): the
`.then(...)` / `.catch(...)` chain after `writeBinary`, as a pure function of
the write outcome.  On a rejected write the catch only logs and raises a
notice; on success the markup is generated with the adapter base path (a
markup failure removes the placeholder and the rethrown error lands in the
catch), otherwise the placeholder is replaced and a success notice raised. -/
def localAfterWrite (doc : List Char) (cursor : Nat × Nat)
    (pastePlace folder path ty basePath : List Char)
    (writeResult : Except (List Char) Unit) :
    (List Char × (Nat × Nat)) × List (List Char) :=
  match writeResult with
  | .error e => ((doc, cursor), [localErrNotice folder e])
  | .ok _ =>
    match wrapFileDependingOnType path ty basePath with
    | .error e => (replaceText doc cursor pastePlace [], [localErrNotice folder e])
    | .ok md => (replaceText doc cursor pastePlace md, [localOkNotice folder])

/-- Abstract effects of the claimed branch of `pasteHandler`
(source lines 150-270), in program order. -/
inductive JsAction where
  | preventDefault
  | awaitFileBytes
  | insertPlaceholderText
  | awaitMkdir
  | uploadSend
  | reconcileStep
deriving DecidableEq

/-- Effect trace of the claimed branch of `pasteHandler`, read off the
source in statement order: `ev.preventDefault()` (line 151), `await
file.arrayBuffer()` (line 154), `editor.replaceSelection(pastePlaceText)`
(line 165), then on the remote path a second `await file.arrayBuffer()`
(line 187) before `client.send` (line 192), and on the local path `await
...mkdir` (line 232) before `writeBinary` (line 234); reconciliation runs in
the promise callbacks. -/
def claimedEventTrace (localUpload : Bool) : List JsAction :=
  if localUpload then
    [.preventDefault, .awaitFileBytes, .insertPlaceholderText,
     .awaitMkdir, .uploadSend, .reconcileStep]
  else
    [.preventDefault, .awaitFileBytes, .insertPlaceholderText,
     .awaitFileBytes, .uploadSend, .reconcileStep]

/-- Index of the first occurrence of an action in a trace (length of the
trace when absent). -/
def firstIdx (a : JsAction) : List JsAction → Nat
  | [] => 0
  | x :: xs => if x = a then 0 else firstIdx a xs + 1

/-! Helper lemmas about substring search and the line/flat-text
correspondence. -/

theorem leadsWith_iff (t : List Char) : ∀ s : List Char,
    leadsWith t s = true ↔ ∃ rest, s = t ++ rest := by
  induction t with
  | nil => intro s; simp [leadsWith]
  | cons a t ih =>
    intro s
    cases s with
    | nil => simp [leadsWith]
    | cons b s =>
      simp only [leadsWith, Bool.and_eq_true, beq_iff_eq, ih, List.cons_append,
        List.cons.injEq]
      constructor
      · rintro ⟨rfl, rest, rfl⟩
        exact ⟨rest, rfl, rfl⟩
      · rintro ⟨rest, rfl, rfl⟩
        exact ⟨rfl, rest, rfl⟩

theorem indexOfSub_some (t : List Char) :
    ∀ (s : List Char) (i : Nat), indexOfSub t s = some i →
      (∃ rest, s.drop i = t ++ rest) ∧ i ≤ s.length := by
  intro s
  induction s with
  | nil =>
    intro i h
    unfold indexOfSub at h
    split at h
    · rename_i hl
      cases h
      exact ⟨(leadsWith_iff t []).mp hl, Nat.le_refl 0⟩
    · cases h
  | cons c s ih =>
    intro i h
    unfold indexOfSub at h
    split at h
    · rename_i hl
      cases h
      exact ⟨(leadsWith_iff t (c :: s)).mp hl, Nat.zero_le _⟩
    · cases hi : indexOfSub t s with
      | none => rw [hi] at h; cases h
      | some j =>
        rw [hi] at h
        simp only [Option.map_some'] at h
        cases h
        obtain ⟨⟨rest, hrest⟩, hle⟩ := ih j hi
        exact ⟨⟨rest, by simpa using hrest⟩, by simpa using Nat.succ_le_succ hle⟩

theorem indexOfSub_zero {t s : List Char} (h : leadsWith t s = true) :
    indexOfSub t s = some 0 := by
  cases s with
  | nil => simp [indexOfSub, h]
  | cons c s => simp [indexOfSub, h]

theorem indexOfSub_of_parts (t post : List Char) :
    ∀ pre : List Char, (indexOfSub t (pre ++ t ++ post)).isSome = true := by
  intro pre
  induction pre with
  | nil =>
    rw [List.nil_append, indexOfSub_zero ((leadsWith_iff t (t ++ post)).mpr ⟨post, rfl⟩)]
    rfl
  | cons c pre ih =>
    show (indexOfSub t (c :: (pre ++ t ++ post))).isSome = true
    unfold indexOfSub
    split
    · rfl
    · simpa using ih

theorem containsSub_iff (s t : List Char) :
    containsSub s t = true ↔ ∃ pre post, s = pre ++ t ++ post := by
  constructor
  · intro h
    unfold containsSub at h
    cases hi : indexOfSub t s with
    | none => rw [hi] at h; cases h
    | some i =>
      obtain ⟨⟨rest, hrest⟩, -⟩ := indexOfSub_some t s i hi
      refine ⟨s.take i, rest, ?_⟩
      conv_lhs => rw [← List.take_append_drop i s]
      rw [hrest, List.append_assoc]
  · rintro ⟨pre, post, rfl⟩
    exact indexOfSub_of_parts t post pre

theorem splitNL_ne_nil (d : List Char) : splitNL d ≠ [] := by
  cases d with
  | nil => simp [splitNL]
  | cons c rest =>
    rcases h : splitNL rest with _ | ⟨l, ls⟩ <;> simp only [splitNL, h]
    · simp
    · split <;> simp

theorem joinNL_splitNL (d : List Char) : joinNL (splitNL d) = d := by
  induction d with
  | nil => simp [splitNL, joinNL]
  | cons c rest ih =>
    rcases h : splitNL rest with _ | ⟨l, ls⟩
    · exact absurd h (splitNL_ne_nil rest)
    · rw [h] at ih
      simp only [splitNL, h]
      by_cases hc : c = '\n'
      · subst hc
        simp only [if_pos rfl]
        simp [joinNL] at ih ⊢
        cases ls with
        | nil => simpa [joinNL] using ih
        | cons l2 ls2 => simpa [joinNL] using ih
      · simp only [if_neg hc]
        cases ls with
        | nil =>
          simp [joinNL] at ih ⊢
          simp [ih]
        | cons l2 ls2 =>
          simp only [joinNL] at ih ⊢
          simp only [List.cons_append]
          rw [ih]

theorem drop_append_len (l₁ l₂ : List Char) (k : Nat) :
    (l₁ ++ l₂).drop (l₁.length + k) = l₂.drop k := by
  induction l₁ with
  | nil => simp
  | cons x l₁ ih =>
    simp only [List.cons_append, List.length_cons]
    rw [show l₁.length + 1 + k = (l₁.length + k) + 1 by omega]
    rw [List.drop_succ_cons]
    exact ih

theorem drop_append_le (l₁ l₂ : List Char) (n : Nat) (h : n ≤ l₁.length) :
    (l₁ ++ l₂).drop n = l₁.drop n ++ l₂ := by
  induction l₁ generalizing n with
  | nil =>
    simp only [List.length_nil, Nat.le_zero] at h
    simp [h]
  | cons x l₁ ih =>
    cases n with
    | zero => simp
    | succ n =>
      simp only [List.cons_append, List.drop_succ_cons]
      exact ih n (by simpa using h)

theorem offsetOf_zero (ls : List (List Char)) (ch : Nat) : offsetOf ls 0 ch = ch := by
  simp [offsetOf]

theorem offsetOf_cons (l : List Char) (ls : List (List Char)) (i ch : Nat) :
    offsetOf (l :: ls) (i + 1) ch = (l.length + 1) + offsetOf ls i ch := by
  simp only [offsetOf, List.take_succ_cons, List.map_cons, List.sum_cons]
  omega

theorem findLine_some (t : List Char) :
    ∀ (lines : List (List Char)) (i ch : Nat), findLine lines t = some (i, ch) →
      ∃ rest, (joinNL lines).drop (offsetOf lines i ch) = t ++ rest := by
  intro lines
  induction lines with
  | nil => intro i ch h; cases h
  | cons l ls ih =>
    intro i ch h
    unfold findLine at h
    cases hidx : indexOfSub t l with
    | some ch0 =>
      rw [hidx] at h
      cases h
      obtain ⟨⟨r, hr⟩, hle⟩ := indexOfSub_some t l ch hidx
      cases ls with
      | nil =>
        exact ⟨r, by simpa [joinNL, offsetOf_zero] using hr⟩
      | cons l2 ls2 =>
        refine ⟨r ++ '\n' :: joinNL (l2 :: ls2), ?_⟩
        rw [offsetOf_zero]
        show (l ++ '\n' :: joinNL (l2 :: ls2)).drop ch = t ++ (r ++ '\n' :: joinNL (l2 :: ls2))
        rw [drop_append_le l _ ch hle, hr, List.append_assoc]
    | none =>
      rw [hidx] at h
      cases hf : findLine ls t with
      | none => rw [hf] at h; cases h
      | some p =>
        rw [hf] at h
        obtain ⟨i', ch'⟩ := p
        simp only [Option.map_some'] at h
        cases h
        obtain ⟨r, hr⟩ := ih i' ch hf
        cases ls with
        | nil => cases hf
        | cons l2 ls2 =>
          refine ⟨r, ?_⟩
          rw [offsetOf_cons]
          show (l ++ '\n' :: joinNL (l2 :: ls2)).drop
              ((l.length + 1) + offsetOf (l2 :: ls2) i' ch) = t ++ r
          have : l ++ '\n' :: joinNL (l2 :: ls2) = (l ++ ['\n']) ++ joinNL (l2 :: ls2) := by
            simp
          rw [this]
          have hlen : (l ++ ['\n']).length = l.length + 1 := by simp
          rw [← hlen, drop_append_len]
          exact hr

theorem findLine_first (t : List Char) :
    ∀ (lines : List (List Char)) (i ch : Nat), findLine lines t = some (i, ch) →
      ∀ j, j < i → indexOfSub t (lines.getD j []) = none := by
  intro lines
  induction lines with
  | nil => intro i ch h; cases h
  | cons l ls ih =>
    intro i ch h j hj
    unfold findLine at h
    cases hidx : indexOfSub t l with
    | some ch0 =>
      rw [hidx] at h
      cases h
      omega
    | none =>
      rw [hidx] at h
      cases hf : findLine ls t with
      | none => rw [hf] at h; cases h
      | some p =>
        rw [hf] at h
        obtain ⟨i', ch'⟩ := p
        simp only [Option.map_some'] at h
        cases h
        cases j with
        | zero => simpa using hidx
        | succ j' =>
          have := ih i' ch hf j' (by omega)
          simpa using this

/-! Helper lemmas characterizing `jsLastIndexOf`. -/

/-- Reference last-occurrence index: the largest index of `c` in the list,
computed structurally. -/
def lastIdx (c : Char) : List Char → Option Nat
  | [] => none
  | x :: xs =>
    match lastIdx c xs with
    | some j => some (j + 1)
    | none => if x = c then some 0 else none

theorem jsLastIndexOfAux_eq (c : Char) :
    ∀ (l : List Char) (i : Nat) (acc : Int),
      jsLastIndexOfAux c l i acc =
        (match lastIdx c l with
         | some j => ((i + j : Nat) : Int)
         | none => acc) := by
  intro l
  induction l with
  | nil => intro i acc; rfl
  | cons x xs ih =>
    intro i acc
    show jsLastIndexOfAux c xs (i + 1) (if x = c then (i : Int) else acc) = _
    rw [ih]
    cases h : lastIdx c xs with
    | some j =>
      simp only [lastIdx, h]
      congr 1
      omega
    | none =>
      simp only [lastIdx, h]
      by_cases hxc : x = c
      · simp [hxc]
      · simp [hxc]

theorem jsLastIndexOf_eq (l : List Char) (c : Char) :
    jsLastIndexOf l c =
      (match lastIdx c l with
       | some j => (j : Int)
       | none => -1) := by
  unfold jsLastIndexOf
  rw [jsLastIndexOfAux_eq]
  cases lastIdx c l <;> simp

theorem lastIdx_not_mem {c : Char} : ∀ {l : List Char}, c ∉ l → lastIdx c l = none := by
  intro l
  induction l with
  | nil => intro _; rfl
  | cons x xs ih =>
    intro h
    have hx : ¬x = c := fun hxc => h (hxc ▸ List.mem_cons_self x xs)
    have hxs : c ∉ xs := fun hm => h (List.mem_cons_of_mem x hm)
    simp only [lastIdx, ih hxs, if_neg hx]

theorem lastIdx_append_last (c : Char) (ext : List Char) (hext : c ∉ ext) :
    ∀ pre : List Char, lastIdx c (pre ++ c :: ext) = some pre.length := by
  intro pre
  induction pre with
  | nil =>
    simp [lastIdx, lastIdx_not_mem hext]
  | cons x pre ih =>
    show lastIdx c (x :: (pre ++ c :: ext)) = some (pre.length + 1)
    simp only [lastIdx, ih]

/-! Claim theorems. -/

/-- Claim C1, counterexample to the claim as stated: with the document
consisting of exactly the inserted placeholder line, a failed remote send
leaves the document unchanged — the placeholder text still occurs in it, so
reconciliation did not delete the placeholder; only the notice is raised. -/
theorem c1_failure_keeps_placeholder_ce :
    (remoteAfterSend (pastePlaceText "k.png".toList) (1, 0)
        (pastePlaceText "k.png".toList) "b".toList "u/".toList "k.png".toList
        (kindStr .image) (.error "boom".toList)).1.1
      = pastePlaceText "k.png".toList
    ∧ containsSub (remoteAfterSend (pastePlaceText "k.png".toList) (1, 0)
        (pastePlaceText "k.png".toList) "b".toList "u/".toList "k.png".toList
        (kindStr .image) (.error "boom".toList)).1.1
        (jsTrim (pastePlaceText "k.png".toList)) = true := by
  exact ⟨rfl, by decide⟩

/-- Claim C1, amended: when the remote send or the local write itself fails,
the document and cursor are left unchanged — the placeholder is not removed —
and a single failure notice containing the underlying error message is
raised.  (Placeholder removal on failure happens only for markup-generation
errors, which are thrown inside the success callback; see C6.) -/
theorem c1_failure_notice_only (doc : List Char) (cursor : Nat × Nat)
    (place bucket path key ty folder lpath basePath e : List Char) :
    remoteAfterSend doc cursor place bucket path key ty (.error e)
        = ((doc, cursor), [remoteErrNotice bucket e])
    ∧ localAfterWrite doc cursor place folder lpath ty basePath (.error e)
        = ((doc, cursor), [localErrNotice folder e])
    ∧ (∃ pre post, remoteErrNotice bucket e = pre ++ e ++ post)
    ∧ (∃ pre post, localErrNotice folder e = pre ++ e ++ post) := by
  refine ⟨rfl, rfl,
    ⟨"Error uploading image to S3 bucket ".toList ++ bucket ++ ": ".toList, [], ?_⟩,
    ⟨"Error uploading image to ".toList ++ folder ++ " folder: ".toList, [], ?_⟩⟩
  · simp [remoteErrNotice]
  · simp [localErrNotice]

/-- Claim C2, counterexample to the claim as stated: in the handler's effect
trace, the first asynchronous step (`await file.arrayBuffer()`, source line
154) occurs strictly before the placeholder insertion (source line 165), on
both the remote and the local path, so the placeholder is not in the
document before asynchronous work completes. -/
theorem c2_placeholder_after_await_ce :
    ¬ (firstIdx .insertPlaceholderText (claimedEventTrace false)
        < firstIdx .awaitFileBytes (claimedEventTrace false))
    ∧ ¬ (firstIdx .insertPlaceholderText (claimedEventTrace true)
        < firstIdx .awaitFileBytes (claimedEventTrace true)) := by
  decide

/-- Claim C2, amended: for every claimed event, the placeholder is inserted
only after the file bytes have been read (the `await` that computes the
digest precedes it) but still before the upload itself is dispatched. -/
theorem c2_insert_between_read_and_upload (localUpload : Bool) :
    firstIdx .awaitFileBytes (claimedEventTrace localUpload)
      < firstIdx .insertPlaceholderText (claimedEventTrace localUpload)
    ∧ firstIdx .insertPlaceholderText (claimedEventTrace localUpload)
      < firstIdx .uploadSend (claimedEventTrace localUpload) := by
  cases localUpload <;> decide

/-- Claim C6: uploading a PDF in local mode (with a filesystem vault, i.e. a
non-empty adapter base path) makes markup generation fail with exactly the
error "PDFs cannot be embedded in local mode"; the handler then runs the
empty-replacement search-and-replace (removing the placeholder) and the
rethrown error reaches the catch, which raises a user notice containing that
message. -/
theorem c6_pdf_local_fails (doc : List Char) (cursor : Nat × Nat)
    (place folder lpath basePath : List Char) (h : basePath ≠ []) :
    wrapFileDependingOnType lpath (kindStr .pdf) basePath
        = .error "PDFs cannot be embedded in local mode".toList
    ∧ localAfterWrite doc cursor place folder lpath (kindStr .pdf) basePath (.ok ())
        = (replaceText doc cursor place [],
           [localErrNotice folder "PDFs cannot be embedded in local mode".toList]) := by
  have hw : wrapFileDependingOnType lpath (kindStr .pdf) basePath
      = .error "PDFs cannot be embedded in local mode".toList := by
    simp only [wrapFileDependingOnType]
    rw [if_neg (by decide), if_neg (by decide), if_neg (by decide),
      if_pos trivial, if_neg h]
  refine ⟨hw, ?_⟩
  unfold localAfterWrite
  rw [hw]

/-- Witness for C6 at a concrete document, path and base path. -/
theorem c6_pdf_local_fails_witness :
    wrapFileDependingOnType "media/a.pdf".toList (kindStr .pdf) "/vault".toList
        = .error "PDFs cannot be embedded in local mode".toList
    ∧ localAfterWrite "![uploading...](a.pdf)\n".toList (1, 0)
        "![uploading...](a.pdf)\n".toList "media".toList "media/a.pdf".toList
        (kindStr .pdf) "/vault".toList (.ok ())
        = (replaceText "![uploading...](a.pdf)\n".toList (1, 0)
            "![uploading...](a.pdf)\n".toList [],
           [localErrNotice "media".toList
             "PDFs cannot be embedded in local mode".toList]) :=
  c6_pdf_local_fails _ _ _ _ _ _ (by decide)

/-- Claim C7: if the trimmed placeholder text does not occur anywhere in the
document at reconciliation time, `replaceText` is a no-op: the document and
cursor are returned unchanged (and, the function being total, no error is
raised). -/
theorem c7_no_occurrence_noop (doc : List Char) (cursor : Nat × Nat)
    (target replacement : List Char)
    (h : ¬ ∃ pre post, doc = pre ++ jsTrim target ++ post) :
    replaceText doc cursor target replacement = (doc, cursor) := by
  have hnone : findLine (splitNL doc) (jsTrim target) = none := by
    cases hf : findLine (splitNL doc) (jsTrim target) with
    | none => rfl
    | some p =>
      obtain ⟨i, ch⟩ := p
      obtain ⟨r, hr⟩ := findLine_some (jsTrim target) (splitNL doc) i ch hf
      rw [joinNL_splitNL] at hr
      refine absurd ⟨doc.take (offsetOf (splitNL doc) i ch), r, ?_⟩ h
      conv_lhs => rw [← List.take_append_drop (offsetOf (splitNL doc) i ch) doc]
      rw [hr, List.append_assoc]
  unfold replaceText
  rw [hnone]

/-- Witness for C7 at a concrete document that does not contain the
placeholder. -/
theorem c7_no_occurrence_noop_witness :
    replaceText "abc\ndef".toList (0, 1) (pastePlaceText "k.png".toList)
        "M".toList = ("abc\ndef".toList, (0, 1)) :=
  c7_no_occurrence_noop _ _ _ _ (fun hocc =>
    absurd ((containsSub_iff _ _).mpr hocc) (by decide))

/-- Claim C10, counterexample to the claim as stated: a present-but-empty
frontmatter `localUploadFolder` does not override the global S3 `folder`
setting — the truthiness ternary (source lines 168-170) falls back to the
global folder, which then prefixes the remote key. -/
theorem c10_empty_folder_no_override_ce :
    ({ localUploadFolder := some [] } : FrontmatterData).localUploadFolder = some []
    ∧ remoteFolder (some { localUploadFolder := some [] })
        { DEFAULT_SETTINGS with folder := "glob".toList } = "glob".toList
    ∧ remoteKey (some { localUploadFolder := some [] })
        { DEFAULT_SETTINGS with folder := "glob".toList } "d.png".toList
      = "glob".toList ++ '/' :: "d.png".toList := by
  exact ⟨rfl, by decide, by decide⟩

/-- Claim C10, amended: for remote uploads the frontmatter key
`localUploadFolder`, when present and non-empty, overrides the global S3
`folder` setting in the remote storage key (a present-but-empty value falls
back to the global folder, see the counterexample), and the same frontmatter
field also determines the local target folder and path — there is no
separate per-document key for the remote folder. -/
theorem c10_folder_shared_override (fm : FrontmatterData)
    (s : SpacesUploaderSettings) (newFileName v : List Char)
    (hv : fm.localUploadFolder = some v) (hne : v ≠ []) :
    remoteFolder (some fm) s = v
    ∧ remoteKey (some fm) s newFileName = v ++ '/' :: newFileName
    ∧ localFolder (some fm) s = v
    ∧ localUploadPath (some fm) s newFileName = v ++ '/' :: newFileName := by
  have h1 : remoteFolder (some fm) s = v := by
    simp [remoteFolder, fmUploadFolder, hv, resolveStr, hne]
  have h2 : localFolder (some fm) s = v := by
    simp [localFolder, fmUploadFolder, hv, resolveStr, hne]
  refine ⟨h1, ?_, h2, ?_⟩
  · simp [remoteKey, h1, hne]
  · simp [localUploadPath, h2, hne]

/-- Witness for C10: frontmatter folder `imgs` wins over the global folder
`glob` for both the remote key and the local path. -/
theorem c10_folder_shared_override_witness :
    remoteFolder (some { localUploadFolder := some "imgs".toList })
        { DEFAULT_SETTINGS with folder := "glob".toList, localUploadFolder := "locg".toList }
      = "imgs".toList
    ∧ remoteKey (some { localUploadFolder := some "imgs".toList })
        { DEFAULT_SETTINGS with folder := "glob".toList, localUploadFolder := "locg".toList }
        "d.png".toList
      = "imgs".toList ++ '/' :: "d.png".toList
    ∧ localFolder (some { localUploadFolder := some "imgs".toList })
        { DEFAULT_SETTINGS with folder := "glob".toList, localUploadFolder := "locg".toList }
      = "imgs".toList
    ∧ localUploadPath (some { localUploadFolder := some "imgs".toList })
        { DEFAULT_SETTINGS with folder := "glob".toList, localUploadFolder := "locg".toList }
        "d.png".toList
      = "imgs".toList ++ '/' :: "d.png".toList :=
  c10_folder_shared_override _ _ _ _ rfl (by decide)

/-- Claim C4, counterexample to the claim as stated: with frontmatter
`localUpload: false` present and global setting `localUpload: true`, the
resolved value is `true` — the present value `false` is not used; the
source's truthiness ternary falls back to the global setting. -/
theorem c4_false_override_ignored_ce :
    ({ localUpload := some false : FrontmatterData }).localUpload = some false
    ∧ effLocalUpload (some { localUpload := some false })
        { DEFAULT_SETTINGS with localUpload := true } = true :=
  ⟨rfl, rfl⟩

/-- Claim C4, amended: a per-document frontmatter field wins only when its
value is truthy (`true` for the boolean fields `localUpload`, `uploadVideo`,
`uploadAudio`, `uploadPdf`; a non-empty string for the folder field); a
present-but-`false` boolean, a present-but-empty folder string, and an
absent field all fall back to the corresponding global setting. -/
theorem c4_truthy_precedence (fm : FrontmatterData) (s : SpacesUploaderSettings) :
    (fm.localUpload = some false → effLocalUpload (some fm) s = s.localUpload)
    ∧ (fm.localUpload = some true → effLocalUpload (some fm) s = true)
    ∧ (fm.localUpload = none → effLocalUpload (some fm) s = s.localUpload)
    ∧ (fm.uploadVideo = some false → effUploadVideo (some fm) s = s.uploadVideo)
    ∧ (fm.uploadVideo = some true → effUploadVideo (some fm) s = true)
    ∧ (fm.uploadVideo = none → effUploadVideo (some fm) s = s.uploadVideo)
    ∧ (fm.uploadAudio = some false → effUploadAudio (some fm) s = s.uploadAudio)
    ∧ (fm.uploadAudio = some true → effUploadAudio (some fm) s = true)
    ∧ (fm.uploadAudio = none → effUploadAudio (some fm) s = s.uploadAudio)
    ∧ (fm.uploadPdf = some false → effUploadPdf (some fm) s = s.uploadPdf)
    ∧ (fm.uploadPdf = some true → effUploadPdf (some fm) s = true)
    ∧ (fm.uploadPdf = none → effUploadPdf (some fm) s = s.uploadPdf)
    ∧ (∀ v, fm.localUploadFolder = some v → v ≠ [] →
        localFolder (some fm) s = v ∧ remoteFolder (some fm) s = v)
    ∧ (fm.localUploadFolder = some [] →
        localFolder (some fm) s = s.localUploadFolder
        ∧ remoteFolder (some fm) s = s.folder)
    ∧ (fm.localUploadFolder = none →
        localFolder (some fm) s = s.localUploadFolder
        ∧ remoteFolder (some fm) s = s.folder) := by
  refine ⟨?_, ?_, ?_, ?_, ?_, ?_, ?_, ?_, ?_, ?_, ?_, ?_, ?_, ?_, ?_⟩
  all_goals
    first
      | exact fun v hv hne =>
          ⟨by simp [localFolder, fmUploadFolder, hv, resolveStr, hne],
           by simp [remoteFolder, fmUploadFolder, hv, resolveStr, hne]⟩
      | exact fun h => by
          simp [effLocalUpload, effUploadVideo, effUploadAudio, effUploadPdf,
            localFolder, remoteFolder, resolveBoolFm, resolveStr,
            fmUploadFolder, h]

/-- Witness for C4 at concrete frontmatter and settings: a present `false`
boolean and a present empty folder both fall back to the global values, and
a present `true` wins. -/
theorem c4_truthy_precedence_witness :
    effLocalUpload (some { localUpload := some false })
        { DEFAULT_SETTINGS with localUpload := true } = true
    ∧ effUploadVideo (some { uploadVideo := some true }) DEFAULT_SETTINGS = true
    ∧ localFolder (some { localUploadFolder := some [] })
        { DEFAULT_SETTINGS with localUploadFolder := "g".toList } = "g".toList :=
  ⟨((c4_truthy_precedence _ _).1 rfl).trans rfl,
   (c4_truthy_precedence _ _).2.2.2.2.1 rfl,
   (((c4_truthy_precedence _ _).2.2.2.2.2.2.2.2.2.2.2.2.2.1 rfl).1).trans rfl⟩

/-- Claim C8: the `thisType` classification checks the declared MIME type in
the fixed precedence order video, audio, pdf, image, with video, audio and
pdf gated by their resolved enable flags and image ungated: it equals the
first matching enabled rule of the ordered specification table, and yields
the empty string (the event is then not claimed) exactly when no enabled
rule matches. -/
theorem c8_classify_first_match (mime : List Char) (uv ua up : Bool) :
    classifyType mime uv ua up
      = (match specClassify mime uv ua up with
         | some k => kindStr k
         | none => [])
    ∧ (classifyType mime uv ua up = [] ↔ specClassify mime uv ua up = none) := by
  cases h1 : containsSub mime videoPat <;>
  cases h2 : containsSub mime audioPat <;>
  cases h3 : containsSub mime pdfPat <;>
  cases h4 : containsSub mime imagePat <;>
  cases uv <;> cases ua <;> cases up <;>
  simp [classifyType, specClassify, specKindRules, firstEnabledMatch, kindStr,
    h1, h2, h3, h4]

/-! Computation lemmas for the extension slice. -/

theorem extSlice_no_dot (name : List Char) (h : '.' ∉ name)
    (hlen : name.length ≤ 4294967296) : extSlice name = [] := by
  have hl : jsLastIndexOf name '.' = -1 := by
    rw [jsLastIndexOf_eq, lastIdx_not_mem h]
  unfold extSlice extStart
  rw [hl]
  have hj : jsUint32 (-1 - 1) = 4294967294 := by decide
  rw [hj]
  exact List.drop_eq_nil_of_le (by omega)

theorem extSlice_last_dot (pre ext : List Char) (hext : '.' ∉ ext)
    (hpre : pre ≠ []) (hlen : pre.length ≤ 4294967296) :
    extSlice (pre ++ '.' :: ext) = ext := by
  have hl : jsLastIndexOf (pre ++ '.' :: ext) '.' = (pre.length : Int) := by
    rw [jsLastIndexOf_eq, lastIdx_append_last '.' ext hext pre]
  have hp1 : 1 ≤ pre.length := by
    cases pre with
    | nil => exact absurd rfl hpre
    | cons _ _ => simp
  unfold extSlice extStart
  rw [hl]
  have hj : jsUint32 ((pre.length : Int) - 1) = pre.length - 1 := by
    unfold jsUint32
    rw [Int.emod_eq_of_lt (by omega) (by omega)]
    omega
  rw [hj, show pre.length - 1 + 2 = pre.length + 1 from by omega,
    drop_append_len pre ('.' :: ext) 1]
  simp

theorem extSlice_dot_head (ext : List Char) (hext : '.' ∉ ext)
    (hlen : ext.length + 1 ≤ 4294967296) : extSlice ('.' :: ext) = [] := by
  have hl : jsLastIndexOf ('.' :: ext) '.' = 0 := by
    rw [jsLastIndexOf_eq,
      show lastIdx '.' ('.' :: ext) = some 0 from by
        simpa using lastIdx_append_last '.' ext hext []]
    simp
  unfold extSlice extStart
  rw [hl]
  have hj : jsUint32 (0 - 1) = 4294967295 := by decide
  rw [hj]
  exact List.drop_eq_nil_of_le (by simp; omega)

/-- Claim C3, counterexample to the claim as stated: for a filename with no
dot the produced key is not the bare digest — the separating dot is appended
unconditionally, leaving a trailing dot. -/
theorem c3_no_dot_trailing_dot_ce :
    mkFileName ['d'] ['f'] = ['d', '.'] ∧ mkFileName ['d'] ['f'] ≠ ['d'] := by
  decide

/-- Claim C3, amended: the separating dot is always appended.  For a
filename whose last dot is at index at least 1 the key is the digest, a dot
and the substring after the last dot; for a filename with no dot, or whose
only dot is its first character, the key is the digest followed by a
trailing dot and an empty extension.  (The length bounds reflect the 32-bit
wrap of `>>> 0` in the slice-start computation.) -/
theorem c3_extension_rule (digest name pre ext : List Char) :
    ('.' ∉ name → name.length ≤ 4294967296 →
      mkFileName digest name = digest ++ ['.'])
    ∧ (name = pre ++ '.' :: ext → '.' ∉ ext → pre ≠ [] →
        pre.length ≤ 4294967296 → mkFileName digest name = digest ++ '.' :: ext)
    ∧ (name = '.' :: ext → '.' ∉ ext → ext.length + 1 ≤ 4294967296 →
        mkFileName digest name = digest ++ ['.']) := by
  refine ⟨?_, ?_, ?_⟩
  · intro h hlen
    unfold mkFileName
    rw [extSlice_no_dot name h hlen]
  · rintro rfl hext hpre hlen
    unfold mkFileName
    rw [extSlice_last_dot pre ext hext hpre hlen]
  · rintro rfl hext hlen
    unfold mkFileName
    rw [extSlice_dot_head ext hext hlen]

/-- Witness for C3 at concrete filenames: a dotless name and a name whose
only dot leads give a trailing-dot key; an ordinary name gives
digest.extension. -/
theorem c3_extension_rule_witness :
    mkFileName "d".toList "f".toList = "d".toList ++ ['.']
    ∧ mkFileName "d".toList "a.png".toList = "d".toList ++ '.' :: "png".toList
    ∧ mkFileName "d".toList ".png".toList = "d".toList ++ ['.'] :=
  ⟨(c3_extension_rule "d".toList "f".toList [] []).1 (by decide) (by decide),
   (c3_extension_rule "d".toList "a.png".toList "a".toList "png".toList).2.1
     (by decide) (by decide) (by decide) (by decide),
   (c3_extension_rule "d".toList ".png".toList [] "png".toList).2.2
     (by decide) (by decide) (by decide)⟩

/-- Claim C9, counterexample to the claim as stated: the filenames ".png"
and "a.png" have the same substring after their last dot ("png"), and with
identical bytes and any fixed digest function they still produce different
content keys, because the slice start wraps when the only dot is the first
character and the extracted extension for ".png" is empty. -/
theorem c9_dot_start_ce :
    specAfterLastDot ".png".toList = specAfterLastDot "a.png".toList
    ∧ fingerprint (fun _ => ['d']) [1, 2, 3] ".png".toList
        ≠ fingerprint (fun _ => ['d']) [1, 2, 3] "a.png".toList := by
  decide

/-- Claim C9, amended: the content key is a function of the file bytes and
the code-extracted extension slice alone — for any digest function,
identical byte sequences with identical extension slices give identical
keys, regardless of the rest of the filename, and repeated calls on the same
input give the same output.  (The extension slice agrees with the substring
after the last dot only when that dot is at index at least 1; see C3.) -/
theorem c9_fingerprint_ext_det (digestFn : List Nat → List Char)
    (b1 b2 : List Nat) (n1 n2 : List Char)
    (hb : b1 = b2) (hext : extSlice n1 = extSlice n2) :
    fingerprint digestFn b1 n1 = fingerprint digestFn b2 n2
    ∧ fingerprint digestFn b1 n1 = fingerprint digestFn b1 n1 := by
  subst hb
  unfold fingerprint mkFileName
  rw [hext]
  exact ⟨rfl, rfl⟩

/-- Witness for C9: same bytes, filenames "a.png" and "b.png". -/
theorem c9_fingerprint_ext_det_witness :
    fingerprint (fun _ => ['d']) [7] "a.png".toList
      = fingerprint (fun _ => ['d']) [7] "b.png".toList :=
  (c9_fingerprint_ext_det (fun _ => ['d']) [7] [7] "a.png".toList "b.png".toList
    rfl (by decide)).1

/-- Claim C5, counterexample to the claim as stated: the cursor is not left
unchanged — `replaceText` sets it to the start of the replaced span (source
line 77, `editor.setCursor(from)`).  Here the cursor starts at line 2 column
0 and after reconciliation it is at line 1 column 1. -/
theorem c5_cursor_moves_ce :
    (replaceText "ab\nX![uploading...](k.png)\ncd".toList (2, 0)
        (pastePlaceText "k.png".toList) "![image](u)".toList).2 = (1, 1)
    ∧ ((1, 1) : Nat × Nat) ≠ (2, 0) := by
  exact ⟨by decide, by decide⟩

/-- Reduction of `replaceText` when the search succeeds. -/
theorem replaceText_found {doc : List Char} {cursor : Nat × Nat}
    {target : List Char} (repl : List Char) {i ch : Nat}
    (h : findLine (splitNL doc) (jsTrim target) = some (i, ch)) :
    replaceText doc cursor target repl =
      (doc.take (offsetOf (splitNL doc) i ch) ++ repl ++
         doc.drop (offsetOf (splitNL doc) i ch + (jsTrim target).length),
       (i, ch)) := by
  unfold replaceText
  rw [h]

/-- Claim C5, amended: for a successful upload whose trimmed placeholder
text occurs in the document, reconciliation replaces exactly the placeholder
substring span on the first line containing it (no earlier line contains the
text): the document decomposes as prefix ++ placeholder ++ suffix, the
result is prefix ++ markup ++ suffix with every other byte preserved, and
the cursor is set to the start of the replaced span rather than left
unchanged. -/
theorem c5_replace_span (doc : List Char) (cursor : Nat × Nat)
    (target repl : List Char) (i ch : Nat)
    (h : findLine (splitNL doc) (jsTrim target) = some (i, ch)) :
    (∃ pre post, doc = pre ++ jsTrim target ++ post
      ∧ (replaceText doc cursor target repl).1 = pre ++ repl ++ post
      ∧ pre = doc.take (offsetOf (splitNL doc) i ch))
    ∧ (replaceText doc cursor target repl).2 = (i, ch)
    ∧ (∀ j, j < i →
        containsSub ((splitNL doc).getD j []) (jsTrim target) = false) := by
  obtain ⟨r, hr⟩ := findLine_some (jsTrim target) (splitNL doc) i ch h
  rw [joinNL_splitNL] at hr
  have hdrop : doc.drop (offsetOf (splitNL doc) i ch + (jsTrim target).length) = r := by
    rw [← List.drop_drop, hr]
    rw [show (jsTrim target).length = (jsTrim target).length + 0 from rfl,
      drop_append_len]
    rfl
  refine ⟨⟨doc.take (offsetOf (splitNL doc) i ch), r, ?_, ?_, rfl⟩, ?_, ?_⟩
  · conv_lhs => rw [← List.take_append_drop (offsetOf (splitNL doc) i ch) doc]
    rw [hr, List.append_assoc]
  · rw [replaceText_found repl h, hdrop]
  · rw [replaceText_found repl h]
  · intro j hj
    have hnone := findLine_first (jsTrim target) (splitNL doc) i ch h j hj
    unfold containsSub
    rw [hnone]
    rfl

/-- Witness for C5 at a concrete document: the placeholder on line 1 at
column 1 is found and the cursor moves there. -/
theorem c5_replace_span_witness :
    (replaceText "ab\nX![uploading...](k.png)\ncd".toList (2, 0)
        (pastePlaceText "k.png".toList) "M".toList).2 = (1, 1) :=
  (c5_replace_span "ab\nX![uploading...](k.png)\ncd".toList (2, 0)
      (pastePlaceText "k.png".toList) "M".toList 1 1 (by decide)).2.1
